import Mathlib

/-!
Shallow embedding of the dota2 match collector (src/dota2/mod.rs,
src/collector.rs, src/database.rs) together with proofs about its
roster transform, fan-out index, rate control, orchestration loop and
query construction.

Machine integers are embedded as `Nat`; the 256-bit `U256` masks are
`Nat` values reduced mod `2 ^ 256` exactly where the Rust type wraps.
-/

namespace Dota2

/-- One player entry of a match record; `hero_id` and `player_slot` are
`u8` values in the source (`full::Match` players). -/
structure Player where
  hero_id : Nat
  player_slot : Nat
  deriving DecidableEq, Repr

/-- One match record of the feed (`full::Match`): the fields of the
source that the collector reads. -/
structure Match where
  match_id : Nat
  match_seq_num : Nat
  players : List Player
  deriving DecidableEq, Repr

/-- `enum Side { Radiant, Dire }` from src/dota2/mod.rs. -/
inductive Side where
  | Radiant
  | Dire
  deriving DecidableEq, Repr

/-- `impl From<u8> for Side`: dire when the slot byte's high bit is set,
radiant otherwise. -/
def Side.ofU8 (value : Nat) : Side :=
  if value &&& 0x80 ≠ 0 then .Dire else .Radiant

/-- `MatchMask` from src/dota2/mod.rs: match id plus one 256-bit hero
presence mask per side. -/
structure MatchMask where
  match_id : Nat
  radiant : Nat
  dire : Nat
  deriving DecidableEq, Repr

/-- `U256::one() << U256::from(hero_id)`: the shift wraps at the 256-bit
width like `primitive_types::U256`. -/
def heroMask (hero_id : Nat) : Nat :=
  (1 <<< hero_id) % 2 ^ 256

/-- The loop body of `impl From<&full::Match> for MatchMask`: or the
player's hero bit into the mask of the player's side. -/
def maskStep (acc : Nat × Nat) (p : Player) : Nat × Nat :=
  match Side.ofU8 p.player_slot with
  | .Radiant => (acc.1 ||| heroMask p.hero_id, acc.2)
  | .Dire => (acc.1, acc.2 ||| heroMask p.hero_id)

/-- `impl From<&full::Match> for MatchMask`: fold the players over both
zeroed side masks. -/
def MatchMask.ofMatch (m : Match) : MatchMask :=
  let sides := m.players.foldl maskStep (0, 0)
  { match_id := m.match_id, radiant := sides.1, dire := sides.2 }

lemma heroMask_testBit (h b : Nat) (hlt : h < 256) :
    (heroMask h).testBit b = decide (h = b) := by
  unfold heroMask
  rw [Nat.shiftLeft_eq, one_mul, Nat.testBit_mod_two_pow, Nat.testBit_two_pow]
  by_cases hb : h = b
  · subst hb
    simp [hlt]
  · simp [hb]

lemma heroMask_eq_pow (h : Nat) (hlt : h < 256) : heroMask h = 2 ^ h := by
  unfold heroMask
  rw [Nat.shiftLeft_eq, one_mul]
  exact Nat.mod_eq_of_lt (Nat.pow_lt_pow_right (by omega) hlt)

lemma maskFold_testBit (ps : List Player) (acc : Nat × Nat) (b : Nat) :
    ((ps.foldl maskStep acc).1.testBit b =
      (acc.1.testBit b || ps.any fun p =>
        decide (Side.ofU8 p.player_slot = Side.Radiant) && (heroMask p.hero_id).testBit b)) ∧
    ((ps.foldl maskStep acc).2.testBit b =
      (acc.2.testBit b || ps.any fun p =>
        decide (Side.ofU8 p.player_slot = Side.Dire) && (heroMask p.hero_id).testBit b)) := by
  induction ps generalizing acc with
  | nil => simp
  | cons p ps ih =>
    simp only [List.foldl_cons, List.any_cons]
    rcases hside : Side.ofU8 p.player_slot with _ | _ <;>
      simp [maskStep, hside, (ih _).1, (ih _).2, Bool.or_assoc, Bool.or_comm, Bool.or_left_comm]

lemma ofMatch_radiant_testBit (m : Match) (h8 : ∀ p ∈ m.players, p.hero_id < 256) (b : Nat) :
    (MatchMask.ofMatch m).radiant.testBit b = true ↔
      ∃ p ∈ m.players, Side.ofU8 p.player_slot = Side.Radiant ∧ p.hero_id = b := by
  have hmf := (maskFold_testBit m.players (0, 0) b).1
  simp only [MatchMask.ofMatch] at hmf ⊢
  rw [hmf]
  simp only [Nat.zero_testBit, Bool.false_or, List.any_eq_true, Bool.and_eq_true,
    decide_eq_true_eq]
  constructor
  · rintro ⟨p, hp, hs, hbit⟩
    rw [heroMask_testBit _ _ (h8 p hp)] at hbit
    exact ⟨p, hp, hs, of_decide_eq_true hbit⟩
  · rintro ⟨p, hp, hs, hb⟩
    refine ⟨p, hp, hs, ?_⟩
    rw [heroMask_testBit _ _ (h8 p hp), hb]
    simp

lemma ofMatch_dire_testBit (m : Match) (h8 : ∀ p ∈ m.players, p.hero_id < 256) (b : Nat) :
    (MatchMask.ofMatch m).dire.testBit b = true ↔
      ∃ p ∈ m.players, Side.ofU8 p.player_slot = Side.Dire ∧ p.hero_id = b := by
  have hmf := (maskFold_testBit m.players (0, 0) b).2
  simp only [MatchMask.ofMatch] at hmf ⊢
  rw [hmf]
  simp only [Nat.zero_testBit, Bool.false_or, List.any_eq_true, Bool.and_eq_true,
    decide_eq_true_eq]
  constructor
  · rintro ⟨p, hp, hs, hbit⟩
    rw [heroMask_testBit _ _ (h8 p hp)] at hbit
    exact ⟨p, hp, hs, of_decide_eq_true hbit⟩
  · rintro ⟨p, hp, hs, hb⟩
    refine ⟨p, hp, hs, ?_⟩
    rw [heroMask_testBit _ _ (h8 p hp), hb]
    simp

/-- C1: for any record whose players carry `u8` hero ids, the roster
transform sets bit `hero_id` in the dire mask exactly for the players
whose slot byte has the high bit set and in the radiant mask exactly for
the others, and no other bit of either mask is set; being a bitmask
characterised pointwise, a bit shared by two same-side players is set
only once, and the transform is a pure function of the record. -/
theorem roster_transform_bits (m : Match) (h8 : ∀ p ∈ m.players, p.hero_id < 256) :
    (∀ b, ((MatchMask.ofMatch m).radiant.testBit b = true ↔
        ∃ p ∈ m.players, Side.ofU8 p.player_slot = Side.Radiant ∧ p.hero_id = b) ∧
      ((MatchMask.ofMatch m).dire.testBit b = true ↔
        ∃ p ∈ m.players, Side.ofU8 p.player_slot = Side.Dire ∧ p.hero_id = b)) ∧
    MatchMask.ofMatch m = MatchMask.ofMatch m := by
  exact ⟨fun b => ⟨ofMatch_radiant_testBit m h8 b, ofMatch_dire_testBit m h8 b⟩, rfl⟩

/-- A concrete record exercising C1: hero 1 on radiant (slot 0), hero 2
on dire (slot 0x80). -/
def m0 : Match :=
  { match_id := 100, match_seq_num := 42
    players := [{ hero_id := 1, player_slot := 0 }, { hero_id := 2, player_slot := 0x80 }] }

theorem roster_transform_bits_witness :
    ((MatchMask.ofMatch m0).radiant.testBit 1 = true ↔
      ∃ p ∈ m0.players, Side.ofU8 p.player_slot = Side.Radiant ∧ p.hero_id = 1) ∧
    ((MatchMask.ofMatch m0).dire.testBit 1 = true ↔
      ∃ p ∈ m0.players, Side.ofU8 p.player_slot = Side.Dire ∧ p.hero_id = 1) :=
  (roster_transform_bits m0 (by decide)).1 1

lemma maskFold_lt (ps : List Player) (acc : Nat × Nat)
    (h1 : acc.1 < 2 ^ 256) (h2 : acc.2 < 2 ^ 256) :
    (ps.foldl maskStep acc).1 < 2 ^ 256 ∧ (ps.foldl maskStep acc).2 < 2 ^ 256 := by
  induction ps generalizing acc with
  | nil => exact ⟨h1, h2⟩
  | cons p ps ih =>
    have hm : heroMask p.hero_id < 2 ^ 256 :=
      Nat.mod_lt _ (Nat.pos_pow_of_pos 256 (by omega))
    simp only [List.foldl_cons]
    rcases hside : Side.ofU8 p.player_slot with _ | _
    · exact ih (maskStep acc p) (by simpa [maskStep, hside] using Nat.or_lt_two_pow h1 hm)
        (by simpa [maskStep, hside] using h2)
    · exact ih (maskStep acc p) (by simpa [maskStep, hside] using h1)
        (by simpa [maskStep, hside] using Nat.or_lt_two_pow h2 hm)

/-- C10: for records whose players carry `u8` hero ids and arbitrary
slot bytes, the roster transform is total: the 256-bit shift building
each hero bit never truncates (`heroMask` is exactly `2 ^ hero_id`),
both produced side masks stay inside the 256-bit width, and the side
classification covers every slot byte. -/
theorem roster_transform_total (m : Match) (h8 : ∀ p ∈ m.players, p.hero_id < 256) :
    (∀ p ∈ m.players, heroMask p.hero_id = 2 ^ p.hero_id) ∧
    (MatchMask.ofMatch m).radiant < 2 ^ 256 ∧ (MatchMask.ofMatch m).dire < 2 ^ 256 ∧
    (∀ slot : Nat, Side.ofU8 slot = Side.Radiant ∨ Side.ofU8 slot = Side.Dire) := by
  have hfold := maskFold_lt m.players (0, 0) (by positivity) (by positivity)
  refine ⟨fun p hp => heroMask_eq_pow p.hero_id (h8 p hp), ?_, ?_, ?_⟩
  · simpa [MatchMask.ofMatch] using hfold.1
  · simpa [MatchMask.ofMatch] using hfold.2
  · intro slot
    unfold Side.ofU8
    by_cases h : slot &&& 0x80 ≠ 0 <;> simp [h]

theorem roster_transform_total_witness :
    (∀ p ∈ m0.players, heroMask p.hero_id = 2 ^ p.hero_id) ∧
    (MatchMask.ofMatch m0).radiant < 2 ^ 256 ∧ (MatchMask.ofMatch m0).dire < 2 ^ 256 ∧
    (∀ slot : Nat, Side.ofU8 slot = Side.Radiant ∨ Side.ofU8 slot = Side.Dire) :=
  roster_transform_total m0 (by decide)

/-! ### The hero fan-out index (`Collector::collect`, src/collector.rs) -/

/-- The collector's `indices: HashMap<NonZeroU8, Vec<MatchMask>>`,
embedded as the total bucket map; keys outside 1..=255 never receive
entries. -/
def Buckets : Type := Nat → List MatchMask

/-- Pointwise bucket overwrite (the effect of mutating one map entry). -/
def Buckets.update (idx : Buckets) (k : Nat) (v : List MatchMask) : Buckets :=
  fun j => if j = k then v else idx j

/-- The per-match body of `Collector::collect`: push the match's mask
onto the bucket of every player's nonzero hero id (the
`filter_map(NonZeroU8::new)` / `entry(key).or_default().push(mask)`
chain), once per player. -/
def pushMask (idx : Buckets) (mat : Match) : Buckets :=
  mat.players.foldl
    (fun ind p =>
      if p.hero_id ≠ 0 then ind.update p.hero_id (ind p.hero_id ++ [MatchMask.ofMatch mat])
      else ind)
    idx

/-- One fold step of `Collector::collect`: update the buckets and take
`max(init, mat.match_seq_num + 1)` for the cursor. -/
def collectStep (acc : Nat × Buckets) (mat : Match) : Nat × Buckets :=
  (max acc.1 (mat.match_seq_num + 1), pushMask acc.2 mat)

/-- `Collector::collect`: fold one fetched batch over the current cursor
and buckets, returning the advanced cursor and the updated buckets. -/
def collect (match_seq_num : Nat) (indices : Buckets) (ms : List Match) : Nat × Buckets :=
  ms.foldl collectStep (match_seq_num, indices)

lemma collect_fst (c : Nat) (idx : Buckets) (ms : List Match) :
    (collect c idx ms).1 = ms.foldl (fun a mat => max a (mat.match_seq_num + 1)) c := by
  induction ms generalizing c idx with
  | nil => rfl
  | cons mat ms ih =>
    simp only [collect, List.foldl_cons, collectStep] at *
    exact ih _ _

lemma foldl_max_init (c : Nat) (ms : List Match) :
    ms.foldl (fun a mat => max a (mat.match_seq_num + 1)) c =
      max c (ms.foldl (fun a mat => max a (mat.match_seq_num + 1)) 0) := by
  induction ms generalizing c with
  | nil => simp
  | cons mat ms ih =>
    simp only [List.foldl_cons]
    rw [ih (max c (mat.match_seq_num + 1)), ih (max 0 (mat.match_seq_num + 1))]
    omega

lemma foldl_max_perm {ms1 ms2 : List Match} (h : ms1.Perm ms2) (c : Nat) :
    ms1.foldl (fun a mat => max a (mat.match_seq_num + 1)) c =
      ms2.foldl (fun a mat => max a (mat.match_seq_num + 1)) c := by
  induction h generalizing c with
  | nil => rfl
  | cons x _ ih => simp only [List.foldl_cons]; exact ih _
  | swap x y l => simp only [List.foldl_cons]; congr 1; omega
  | trans _ _ ih1 ih2 => rw [ih1, ih2]

/-- Maximum over the batch of `match_seq_num + 1` (zero on an empty
batch), the value C2 compares the returned cursor with. -/
def maxSeq (ms : List Match) : Nat :=
  ms.foldl (fun a mat => max a (mat.match_seq_num + 1)) 0

/-- C2: for every batch and starting cursor, `collect` returns
`max(previous cursor, max over matches of sequence_num + 1)`; the
returned cursor does not depend on the order of the batch and is never
below the previous cursor. -/
theorem collect_cursor_spec (c : Nat) (idx : Buckets) (ms ms2 : List Match)
    (hperm : ms.Perm ms2) :
    (collect c idx ms).1 = max c (maxSeq ms) ∧
    (collect c idx ms).1 = (collect c idx ms2).1 ∧
    c ≤ (collect c idx ms).1 := by
  have h1 := collect_fst c idx ms
  refine ⟨?_, ?_, ?_⟩
  · rw [h1, foldl_max_init]
    simp [maxSeq]
  · rw [h1, collect_fst, foldl_max_perm hperm]
  · rw [h1, foldl_max_init]
    omega

/-- The all-empty bucket map the collector starts from. -/
def emptyBuckets : Buckets := fun _ => []

/-- Batch elements for concrete checks: sequence numbers 11 and 10, out
of order. -/
def mA : Match := { match_id := 1, match_seq_num := 11, players := [] }

def mB : Match := { match_id := 2, match_seq_num := 10, players := [] }

theorem collect_cursor_spec_witness :
    (collect 5 emptyBuckets [mA, mB]).1 = max 5 (maxSeq [mA, mB]) ∧
    (collect 5 emptyBuckets [mA, mB]).1 = (collect 5 emptyBuckets [mB, mA]).1 ∧
    5 ≤ (collect 5 emptyBuckets [mA, mB]).1 :=
  collect_cursor_spec 5 emptyBuckets [mA, mB] [mB, mA] (by decide)

/-- The masks one batch appends to bucket `k`: per match, one copy of
its mask per player whose `hero_id` equals `k`. -/
def bucketAppends (k : Nat) (ms : List Match) : List MatchMask :=
  (ms.map fun mat =>
    (mat.players.filter fun p => p.hero_id == k).map fun _ => MatchMask.ofMatch mat).flatten

lemma Buckets.update_same (idx : Buckets) (k : Nat) (v : List MatchMask) :
    idx.update k v k = v := by
  simp [Buckets.update]

lemma Buckets.update_other (idx : Buckets) (k j : Nat) (v : List MatchMask) (h : j ≠ k) :
    idx.update k v j = idx j := by
  simp [Buckets.update, h]

lemma pushFold_apply (mask : MatchMask) (ps : List Player) (idx : Buckets) (k : Nat)
    (hk : k ≠ 0) :
    (ps.foldl
      (fun ind p =>
        if p.hero_id ≠ 0 then ind.update p.hero_id (ind p.hero_id ++ [mask]) else ind)
      idx) k =
      idx k ++ (ps.filter fun p => p.hero_id == k).map (fun _ => mask) := by
  induction ps generalizing idx with
  | nil => simp
  | cons p ps ih =>
    simp only [List.foldl_cons, List.filter_cons]
    by_cases hp : p.hero_id = 0
    · rw [if_neg (not_not_intro hp), if_neg (by simp [hp, Ne.symm hk])]
      exact ih idx
    · rw [if_pos hp]
      by_cases hpk : p.hero_id = k
      · subst hpk
        rw [if_pos (by simp), ih _, Buckets.update_same]
        simp
      · rw [if_neg (by simp [hpk]), ih _,
          Buckets.update_other idx _ _ _ fun h => hpk h.symm]

lemma pushFold_zero (mask : MatchMask) (ps : List Player) (idx : Buckets) :
    (ps.foldl
      (fun ind p =>
        if p.hero_id ≠ 0 then ind.update p.hero_id (ind p.hero_id ++ [mask]) else ind)
      idx) 0 = idx 0 := by
  induction ps generalizing idx with
  | nil => rfl
  | cons p ps ih =>
    simp only [List.foldl_cons]
    by_cases hp : p.hero_id = 0
    · rw [if_neg (not_not_intro hp)]
      exact ih idx
    · rw [if_pos hp, ih _, Buckets.update_other idx _ _ _ (Ne.symm hp)]

lemma pushMask_apply (idx : Buckets) (mat : Match) (k : Nat) (hk : k ≠ 0) :
    pushMask idx mat k =
      idx k ++
        (mat.players.filter fun p => p.hero_id == k).map (fun _ => MatchMask.ofMatch mat) :=
  pushFold_apply (MatchMask.ofMatch mat) mat.players idx k hk

lemma pushMask_zero (idx : Buckets) (mat : Match) : pushMask idx mat 0 = idx 0 :=
  pushFold_zero (MatchMask.ofMatch mat) mat.players idx

lemma collect_snd_apply (c : Nat) (idx : Buckets) (ms : List Match) (k : Nat) (hk : k ≠ 0) :
    (collect c idx ms).2 k = idx k ++ bucketAppends k ms := by
  induction ms generalizing c idx with
  | nil => simp [collect, bucketAppends]
  | cons mat ms ih =>
    simp only [collect, List.foldl_cons, collectStep] at *
    rw [ih _ _, pushMask_apply idx mat k hk]
    simp [bucketAppends, List.append_assoc]

lemma collect_snd_zero (c : Nat) (idx : Buckets) (ms : List Match) :
    (collect c idx ms).2 0 = idx 0 := by
  induction ms generalizing c idx with
  | nil => rfl
  | cons mat ms ih =>
    simp only [collect, List.foldl_cons, collectStep] at *
    rw [ih _ _, pushMask_zero]

lemma bucketAppends_eq_nil (k : Nat) (ms : List Match)
    (h : ∀ mat ∈ ms, ∀ p ∈ mat.players, p.hero_id ≠ k) :
    bucketAppends k ms = [] := by
  induction ms with
  | nil => rfl
  | cons mat ms ih =>
    simp only [bucketAppends, List.map_cons, List.flatten_cons]
    rw [List.filter_eq_nil_iff.mpr fun p hp => by
        simpa using h mat (by simp) p hp]
    simp only [List.map_nil, List.nil_append]
    exact ih fun m hm p hp => h m (by simp [hm]) p hp

/-- A record with two same-side players of the same hero identity; legal
input shape for `collect`, which iterates players rather than distinct
heroes. -/
def dupHeroMatch : Match :=
  { match_id := 7, match_seq_num := 10
    players := [{ hero_id := 5, player_slot := 0 }, { hero_id := 5, player_slot := 1 }] }

/-- C5 counterexample: a match whose players list hero 5 twice has a
single distinct nonzero hero identity, yet `collect` appends its mask to
bucket 5 twice, refuting the appended-exactly-once claim. -/
theorem collect_dup_hero_counterexample :
    ((collect 0 emptyBuckets [dupHeroMatch]).2 5).length = 2 ∧
    (dupHeroMatch.players.map Player.hero_id).dedup = [5] := by
  constructor
  · rfl
  · decide

/-- C5 (amended): for every batch, each match's mask is appended to
bucket `k` once per player of that match whose nonzero hero identity is
`k` (in batch order), and to no other bucket; bucket 0 is never touched,
so it stays empty when it starts empty. -/
theorem collect_buckets_spec (c : Nat) (idx : Buckets) (ms : List Match) (k : Nat)
    (hk : k ≠ 0) :
    (collect c idx ms).2 k = idx k ++ bucketAppends k ms ∧
    ((∀ mat ∈ ms, ∀ p ∈ mat.players, p.hero_id ≠ k) → (collect c idx ms).2 k = idx k) ∧
    (collect c idx ms).2 0 = idx 0 := by
  refine ⟨collect_snd_apply c idx ms k hk, fun h => ?_, collect_snd_zero c idx ms⟩
  rw [collect_snd_apply c idx ms k hk, bucketAppends_eq_nil k ms h, List.append_nil]

theorem collect_buckets_spec_witness :
    (collect 0 emptyBuckets [dupHeroMatch]).2 5 =
      emptyBuckets 5 ++ bucketAppends 5 [dupHeroMatch] ∧
    ((∀ mat ∈ [dupHeroMatch], ∀ p ∈ mat.players, p.hero_id ≠ 5) →
      (collect 0 emptyBuckets [dupHeroMatch]).2 5 = emptyBuckets 5) ∧
    (collect 0 emptyBuckets [dupHeroMatch]).2 0 = emptyBuckets 0 :=
  collect_buckets_spec 0 emptyBuckets [dupHeroMatch] 5 (by decide)

/-! ### Flushing the index (`Collector::save`, src/collector.rs) -/

/-- `Collector::save`: persist each bucket in iteration order through
`save_indexed_masks` and clear it only after that bucket's persistence
succeeded; a failure aborts the whole flush, leaving the failed and the
not-yet-attempted buckets untouched. The bucket iteration order of the
`HashMap` is supplied as the `keys` list. -/
def save {E : Type} (persist : Nat → List MatchMask → Except E Unit) :
    List Nat → Buckets → Buckets × Option E
  | [], idx => (idx, none)
  | k :: rest, idx =>
    match persist k (idx k) with
    | .error e => (idx, some e)
    | .ok _ => save persist rest (idx.update k [])

lemma save_ok_of_persist_ok {E : Type} (persist : Nat → List MatchMask → Except E Unit)
    (hpersist : ∀ k ms, persist k ms = .ok ()) (keys : List Nat) (idx : Buckets) :
    (save persist keys idx).2 = none := by
  induction keys generalizing idx with
  | nil => rfl
  | cons k rest ih =>
    simp only [save, hpersist k (idx k)]
    exact ih _

/-- C3: when flushing fails at some bucket, the flush returns that
bucket's persistence error; the failed bucket and every bucket not yet
attempted keep their entries, while every bucket attempted before the
failure was persisted successfully and cleared; consequently a later
`collect` still appends on top of the failed bucket's pre-failure
entries. -/
theorem save_partial_failure {E : Type} (persist : Nat → List MatchMask → Except E Unit)
    (keys : List Nat) (idx idx2 : Buckets) (e : E) (hnd : keys.Nodup)
    (hfail : save persist keys idx = (idx2, some e)) :
    ∃ pre k post, keys = pre ++ k :: post ∧
      persist k (idx k) = .error e ∧
      (∀ j ∈ pre, idx2 j = [] ∧ persist j (idx j) = .ok ()) ∧
      idx2 k = idx k ∧
      (∀ j ∈ post, idx2 j = idx j) ∧
      (∀ j, j ∉ pre → idx2 j = idx j) ∧
      (∀ c ms, k ≠ 0 → (collect c idx2 ms).2 k = idx k ++ bucketAppends k ms) := by
  induction keys generalizing idx with
  | nil => simp [save] at hfail
  | cons k0 rest ih =>
    rw [List.nodup_cons] at hnd
    rcases hpk : persist k0 (idx k0) with e0 | ⟨⟩
    · have heq : (idx, some e0) = (idx2, some e) := by
        rw [← hfail]
        simp [save, hpk]
      obtain ⟨rfl, he⟩ : idx = idx2 ∧ e0 = e := by
        constructor
        · exact congrArg Prod.fst heq
        · simpa using congrArg Prod.snd heq
      subst he
      refine ⟨[], k0, rest, rfl, hpk, by simp, rfl, fun j hj => rfl, fun j hj => rfl,
        fun c ms hk => collect_snd_apply c idx ms k0 hk⟩
    · have hstep : save persist (k0 :: rest) idx = save persist rest (idx.update k0 []) := by
        simp [save, hpk]
      rw [hstep] at hfail
      obtain ⟨pre, k, post, hkeys, hper, hpre, hkk, hpost, hout, hcol⟩ :=
        ih (idx.update k0 []) hnd.2 hfail
      have hk0 : k0 ∉ rest := hnd.1
      have hkne : k ≠ k0 := by
        rintro rfl
        exact hk0 (hkeys ▸ List.mem_append_right pre (List.mem_cons_self _ _))
      have hupd : ∀ j, j ≠ k0 → idx.update k0 [] j = idx j := fun j hj =>
        Buckets.update_other idx _ _ _ hj
      refine ⟨k0 :: pre, k, post, by rw [hkeys, List.cons_append], ?_, ?_, ?_, ?_, ?_, ?_⟩
      · rwa [hupd k hkne] at hper
      · intro j hjmem
        rcases List.mem_cons.mp hjmem with rfl | hj
        · refine ⟨?_, hpk⟩
          have hj0 : j ∉ pre := fun hmem =>
            hk0 (hkeys ▸ List.mem_append_left _ hmem)
          rw [hout j hj0, Buckets.update_same]
        · obtain ⟨h1, h2⟩ := hpre j hj
          have hjne : j ≠ k0 := by
            rintro rfl
            exact hk0 (hkeys ▸ List.mem_append_left _ hj)
          exact ⟨h1, by rwa [hupd j hjne] at h2⟩
      · rw [hkk, hupd k hkne]
      · intro j hj
        have hjne : j ≠ k0 := by
          rintro rfl
          exact hk0 (hkeys ▸ List.mem_append_right pre (List.mem_cons_of_mem _ hj))
        rw [hpost j hj, hupd j hjne]
      · intro j hj
        rw [List.mem_cons] at hj
        push_neg at hj
        rw [hout j hj.2, hupd j hj.1]
      · intro c ms hk
        rw [hcol c ms hk, hupd k hkne]

/-- Persistence stub for concrete checks: bucket 2 fails, every other
bucket persists. -/
def wPersist : Nat → List MatchMask → Except String Unit :=
  fun k _ => if k = 2 then .error "boom" else .ok ()

/-- A distinguishable placeholder mask per bucket for concrete checks. -/
def maskOf (i : Nat) : MatchMask := { match_id := i, radiant := 0, dire := 0 }

/-- Concrete starting buckets for the flush checks: buckets 1, 2, 3 hold
one mask each. -/
def wIdx : Buckets := fun k => if 1 ≤ k ∧ k ≤ 3 then [maskOf k] else []

theorem save_partial_failure_witness :
    ∃ pre k post, ([1, 2, 3] : List Nat) = pre ++ k :: post ∧
      wPersist k (wIdx k) = Except.error "boom" ∧
      (∀ j ∈ pre, Buckets.update wIdx 1 [] j = [] ∧ wPersist j (wIdx j) = Except.ok ()) ∧
      Buckets.update wIdx 1 [] k = wIdx k ∧
      (∀ j ∈ post, Buckets.update wIdx 1 [] j = wIdx j) ∧
      (∀ j, j ∉ pre → Buckets.update wIdx 1 [] j = wIdx j) ∧
      (∀ c ms, k ≠ 0 →
        (collect c (Buckets.update wIdx 1 []) ms).2 k = wIdx k ++ bucketAppends k ms) :=
  save_partial_failure wPersist [1, 2, 3] wIdx (Buckets.update wIdx 1 []) "boom"
    (by decide) rfl

/-! ### The store gateway (`Database::query_matches`, src/database.rs) -/

/-- Modelled from the spec: the persisted row type `MatchDraft` (its
declaration lives in the dota2 module outside src/); per the `drafts`
table schema in src/database.rs it carries the match id and one tuple of
hero ids per side, embedded here as lists. -/
structure MatchDraft where
  match_id : Nat
  radiant : List Nat
  dire : List Nat
  deriving DecidableEq, Repr

/-- ClickHouse
`bitmapHasAll(bitmapBuild(array(untuple(side))), bitmapBuild([heroes]))`
as issued by `side_check`: every queried hero id occurs among the side's
stored hero ids. -/
def bitmapHasAll (side : List Nat) (heroes : List Nat) : Bool :=
  heroes.all fun h => side.contains h

/-- The `(cond1, cond2)` pair `Database::query_matches` builds from the
two query hero sets, as row predicates; `none` is the early
empty-result return taken when both sets are empty. -/
def queryConds (team1 team2 : List Nat) :
    Option ((MatchDraft → Bool) × (MatchDraft → Bool)) :=
  match team1.isEmpty, team2.isEmpty with
  | true, true => none
  | true, false =>
    some (fun r => bitmapHasAll r.radiant team2, fun r => bitmapHasAll r.dire team2)
  | false, true =>
    some (fun r => bitmapHasAll r.radiant team1, fun r => bitmapHasAll r.dire team1)
  | false, false =>
    some (fun r => bitmapHasAll r.radiant team1 && bitmapHasAll r.dire team2,
      fun r => bitmapHasAll r.radiant team2 && bitmapHasAll r.dire team1)

/-- The WHERE predicate `(cond1 OR cond2)` of the issued query. -/
def matchPred (team1 team2 : List Nat) (r : MatchDraft) : Bool :=
  match queryConds team1 team2 with
  | none => false
  | some (c1, c2) => c1 r || c2 r

/-- `ORDER BY match_id DESC`: descending order on match identity. -/
def draftGE (a b : MatchDraft) : Prop := b.match_id ≤ a.match_id

instance : DecidableRel draftGE := fun a b => Nat.decLe b.match_id a.match_id

instance : IsTotal MatchDraft draftGE := ⟨fun a b => Nat.le_total b.match_id a.match_id⟩

instance : IsTrans MatchDraft draftGE := ⟨fun _ _ _ h1 h2 => Nat.le_trans h2 h1⟩

/-- `Database::query_matches` over an abstract store contents: empty
result and no scan when both hero sets are empty, otherwise the matching
rows ordered by match id descending with `OFFSET`/`LIMIT` applied; the
boolean records whether a scan was issued. -/
def query_matches (store : List MatchDraft) (team1 team2 : List Nat)
    (limit offset : Nat) : List MatchDraft × Bool :=
  match queryConds team1 team2 with
  | none => ([], false)
  | some (c1, c2) =>
    ((((store.filter fun r => c1 r || c2 r).insertionSort draftGE).drop offset).take limit,
      true)

lemma bitmapHasAll_iff (side heroes : List Nat) :
    bitmapHasAll side heroes = true ↔ ∀ h ∈ heroes, h ∈ side := by
  simp [bitmapHasAll, List.all_eq_true, List.contains_iff_exists_mem_beq, beq_iff_eq]

lemma queryConds_eq_none_iff (team1 team2 : List Nat) :
    queryConds team1 team2 = none ↔ team1 = [] ∧ team2 = [] := by
  rcases team1 with _ | ⟨a1, t1⟩ <;> rcases team2 with _ | ⟨a2, t2⟩ <;> simp [queryConds]

/-- C4: `query_matches` issues no scan and returns an empty result when
both hero sets are empty; with exactly one non-empty set `S` the issued
predicate is `S ⊆ radiant ∨ S ⊆ dire`; with both non-empty it is
`(team1 ⊆ radiant ∧ team2 ⊆ dire) ∨ (team2 ⊆ radiant ∧ team1 ⊆ dire)`;
and an issued query returns the predicate's rows ordered by match id
descending, paginated by the given offset and limit. -/
theorem query_matches_spec (store : List MatchDraft) (team1 team2 : List Nat)
    (limit offset : Nat) :
    (team1 = [] ∧ team2 = [] → query_matches store team1 team2 limit offset = ([], false)) ∧
    (team1 ≠ [] ∧ team2 = [] → ∀ r, matchPred team1 team2 r = true ↔
      ((∀ h ∈ team1, h ∈ r.radiant) ∨ (∀ h ∈ team1, h ∈ r.dire))) ∧
    (team1 = [] ∧ team2 ≠ [] → ∀ r, matchPred team1 team2 r = true ↔
      ((∀ h ∈ team2, h ∈ r.radiant) ∨ (∀ h ∈ team2, h ∈ r.dire))) ∧
    (team1 ≠ [] ∧ team2 ≠ [] → ∀ r, matchPred team1 team2 r = true ↔
      (((∀ h ∈ team1, h ∈ r.radiant) ∧ (∀ h ∈ team2, h ∈ r.dire)) ∨
        ((∀ h ∈ team2, h ∈ r.radiant) ∧ (∀ h ∈ team1, h ∈ r.dire)))) ∧
    (¬(team1 = [] ∧ team2 = []) →
      query_matches store team1 team2 limit offset =
        ((((store.filter (matchPred team1 team2)).insertionSort draftGE).drop
          offset).take limit, true) ∧
      (query_matches store team1 team2 limit offset).1.Sorted draftGE) := by
  refine ⟨?_, ?_, ?_, ?_, ?_⟩
  · rintro ⟨h1, h2⟩
    subst h1
    subst h2
    rfl
  · rintro ⟨h1, h2⟩ r
    subst h2
    rcases team1 with _ | ⟨a1, t1⟩
    · exact absurd rfl h1
    · simp [matchPred, queryConds, bitmapHasAll_iff]
  · rintro ⟨h1, h2⟩ r
    subst h1
    rcases team2 with _ | ⟨a2, t2⟩
    · exact absurd rfl h2
    · simp [matchPred, queryConds, bitmapHasAll_iff]
  · rintro ⟨h1, h2⟩ r
    rcases team1 with _ | ⟨a1, t1⟩
    · exact absurd rfl h1
    rcases team2 with _ | ⟨a2, t2⟩
    · exact absurd rfl h2
    simp [matchPred, queryConds, bitmapHasAll_iff]
  · intro hc
    rcases hq : queryConds team1 team2 with _ | ⟨c1, c2⟩
    · exact absurd ((queryConds_eq_none_iff team1 team2).mp hq) hc
    · have hfun : (fun r => c1 r || c2 r) = matchPred team1 team2 := by
        funext r
        simp [matchPred, hq]
      constructor
      · simp only [query_matches, hq]
        rw [hfun]
      · simp only [query_matches, hq]
        exact List.Pairwise.sublist
          ((List.take_sublist _ _).trans (List.drop_sublist _ _))
          (List.sorted_insertionSort draftGE _)

/-- A store row matched by the concrete query checks below. -/
def r1 : MatchDraft := { match_id := 10, radiant := [1, 2, 7, 8, 9], dire := [3, 4, 5, 6, 11] }

/-- A store row not matched by the concrete query checks below. -/
def r2 : MatchDraft := { match_id := 20, radiant := [3, 4, 7, 8, 9], dire := [5, 6, 11, 12, 13] }

def wStore : List MatchDraft := [r1, r2]

theorem query_matches_spec_witness :
    query_matches wStore [] [] 10 0 = ([], false) ∧
    (matchPred [1, 2] [3, 4] r1 = true ↔
      (((∀ h ∈ [1, 2], h ∈ r1.radiant) ∧ (∀ h ∈ [3, 4], h ∈ r1.dire)) ∨
        ((∀ h ∈ [3, 4], h ∈ r1.radiant) ∧ (∀ h ∈ [1, 2], h ∈ r1.dire)))) ∧
    (query_matches wStore [1, 2] [3, 4] 10 0).1.Sorted draftGE :=
  ⟨(query_matches_spec wStore [] [] 10 0).1 ⟨rfl, rfl⟩,
    (query_matches_spec wStore [1, 2] [3, 4] 10 0).2.2.2.1
      ⟨List.cons_ne_nil _ _, List.cons_ne_nil _ _⟩ r1,
    ((query_matches_spec wStore [1, 2] [3, 4] 10 0).2.2.2.2 (by simp)).2⟩

/-! ### The rate governor (`RateControl`, src/collector.rs) -/

/-- `RateControl` without the wall-clock `last_timestamp` field (real
time is outside the embedding); the interval fields are `Duration`
values counted in nanoseconds. -/
structure RateControl where
  interval : Nat
  min_interval : Nat
  max_interval : Nat
  deriving DecidableEq, Repr

/-- `Duration::from_millis`: milliseconds to nanoseconds. -/
def nanosPerMilli : Nat := 1000000

/-- `RateControl::new`: bounds from milliseconds, starting interval
`min_interval * 2`. -/
def RateControl.new (minMs maxMs : Nat) : RateControl :=
  { interval := minMs * nanosPerMilli * 2
    min_interval := minMs * nanosPerMilli
    max_interval := maxMs * nanosPerMilli }

/-- `RateControl::speed_up`:
`interval = max(interval * 9 / 10, min_interval)`; `Duration` scalar
multiplication and division are exact nanosecond arithmetic with
flooring division. -/
def RateControl.speed_up (rc : RateControl) : RateControl :=
  { rc with interval := Nat.max (rc.interval * 9 / 10) rc.min_interval }

/-- `RateControl::slow_down`: `interval = min(interval * 2, max_interval)`. -/
def RateControl.slow_down (rc : RateControl) : RateControl :=
  { rc with interval := Nat.min (rc.interval * 2) rc.max_interval }

lemma slow_down_iterate_fields (rc : RateControl) (n : Nat) :
    (RateControl.slow_down^[n] rc).max_interval = rc.max_interval ∧
    (RateControl.slow_down^[n] rc).min_interval = rc.min_interval := by
  induction n with
  | zero => exact ⟨rfl, rfl⟩
  | succ n ih =>
    rw [Function.iterate_succ_apply']
    exact ih

lemma speed_up_iterate_fields (rc : RateControl) (n : Nat) :
    (RateControl.speed_up^[n] rc).max_interval = rc.max_interval ∧
    (RateControl.speed_up^[n] rc).min_interval = rc.min_interval := by
  induction n with
  | zero => exact ⟨rfl, rfl⟩
  | succ n ih =>
    rw [Function.iterate_succ_apply']
    exact ih

/-- C6: for strictly positive configured bounds with min ≤ max, the
governor starts at twice the minimum interval; one `speed_up` sets the
interval to `max(interval * 9/10, min_interval)` and one `slow_down` to
`min(interval * 2, max_interval)` (the nanosecond-exact reading of the
0.9 and 2 factors); after any positive number of repeated `slow_down`
calls the interval is at most `max_interval`, and after any positive
number of repeated `speed_up` calls it is at least `min_interval`. -/
theorem rate_control_spec (minMs maxMs : Nat) (hpos : 0 < minMs) (hle : minMs ≤ maxMs) :
    (RateControl.new minMs maxMs).interval = 2 * (RateControl.new minMs maxMs).min_interval ∧
    0 < (RateControl.new minMs maxMs).min_interval ∧
    (RateControl.new minMs maxMs).min_interval ≤ (RateControl.new minMs maxMs).max_interval ∧
    (∀ rc : RateControl, rc.speed_up.interval = Nat.max (rc.interval * 9 / 10) rc.min_interval) ∧
    (∀ rc : RateControl, rc.slow_down.interval = Nat.min (rc.interval * 2) rc.max_interval) ∧
    (∀ (rc : RateControl) (n : Nat), 0 < n →
      (RateControl.slow_down^[n] rc).interval ≤ rc.max_interval) ∧
    (∀ (rc : RateControl) (n : Nat), 0 < n →
      rc.min_interval ≤ (RateControl.speed_up^[n] rc).interval) := by
  refine ⟨?_, ?_, ?_, fun rc => rfl, fun rc => rfl, ?_, ?_⟩
  · simp only [RateControl.new]
    omega
  · simp only [RateControl.new, nanosPerMilli]
    positivity
  · simp only [RateControl.new]
    exact Nat.mul_le_mul_right _ hle
  · intro rc n hn
    obtain ⟨m, rfl⟩ := Nat.exists_eq_succ_of_ne_zero (Nat.pos_iff_ne_zero.mp hn)
    rw [Function.iterate_succ_apply']
    have hmax := (slow_down_iterate_fields rc m).1
    simp only [RateControl.slow_down, hmax]
    exact Nat.min_le_right _ _
  · intro rc n hn
    obtain ⟨m, rfl⟩ := Nat.exists_eq_succ_of_ne_zero (Nat.pos_iff_ne_zero.mp hn)
    rw [Function.iterate_succ_apply']
    have hmin := (speed_up_iterate_fields rc m).2
    simp only [RateControl.speed_up, hmin]
    exact Nat.le_max_right _ _

theorem rate_control_spec_witness :
    (RateControl.new 5000 60000).interval = 2 * (RateControl.new 5000 60000).min_interval ∧
    0 < (RateControl.new 5000 60000).min_interval ∧
    (RateControl.new 5000 60000).min_interval ≤ (RateControl.new 5000 60000).max_interval ∧
    (∀ rc : RateControl, rc.speed_up.interval = Nat.max (rc.interval * 9 / 10) rc.min_interval) ∧
    (∀ rc : RateControl, rc.slow_down.interval = Nat.min (rc.interval * 2) rc.max_interval) ∧
    (∀ (rc : RateControl) (n : Nat), 0 < n →
      (RateControl.slow_down^[n] rc).interval ≤ rc.max_interval) ∧
    (∀ (rc : RateControl) (n : Nat), 0 < n →
      rc.min_interval ≤ (RateControl.speed_up^[n] rc).interval) :=
  rate_control_spec 5000 60000 (by decide) (by decide)

/-! ### The orchestrator (`Collector::request` / `Collector::run`,
src/collector.rs) -/

/-- One outcome of `Client::get_match_history_full`: a decoded page,
the fatal `RequestError::DecodeError(err, content)`, or a recoverable
transport error. -/
inductive FetchResult where
  | ok (page : List Match)
  | decodeError (err : String) (content : String)
  | transient (err : String)
  deriving DecidableEq, Repr

/-- Whether a fetch outcome is the fatal decode failure. -/
def FetchResult.isDecodeErr : FetchResult → Bool
  | .decodeError _ _ => true
  | _ => false

/-- The side file written on a decode failure:
`format!("{}-error.json", match_seq_num)` plus the raw payload. -/
structure Artifact where
  filename : String
  content : String
  deriving DecidableEq, Repr

/-- The orchestrator state threaded through the run loop: sequence
cursor, rate governor and fan-out index. -/
structure CollectorSt where
  match_seq_num : Nat
  rate : RateControl
  indices : Buckets

/-- `Collector::request`: on success feed the page to `collect`, store
the returned cursor, `speed_up`, and additionally `slow_down` when the
page is shorter than the requested 100; on a decode error write the
artifact named after the current cursor and fail; on any other error
`slow_down` (the fixed cooldown sleep is real time, not modelled). -/
def request (st : CollectorSt) (fr : FetchResult) : CollectorSt × Option Artifact :=
  match fr with
  | .ok page =>
    let res := collect st.match_seq_num st.indices page
    let rate0 := st.rate.speed_up
    ({ match_seq_num := res.1
       rate := if page.length < 100 then rate0.slow_down else rate0
       indices := res.2 }, none)
  | .decodeError _ content =>
    (st, some { filename := toString st.match_seq_num ++ "-error.json", content := content })
  | .transient _ =>
    ({ st with rate := st.rate.slow_down }, none)

/-- C7: a successful fetch cycle feeds the page to `collect`, sets the
cursor to the value `collect` returned, updates the indices with
`collect`'s buckets and calls `speed_up`; when the page holds fewer than
the requested 100 matches, `slow_down` is additionally applied in the
same cycle, so the governor receives both adjustments. -/
theorem request_success_spec (st : CollectorSt) (page : List Match) :
    (request st (.ok page)).1.match_seq_num = (collect st.match_seq_num st.indices page).1 ∧
    (request st (.ok page)).1.indices = (collect st.match_seq_num st.indices page).2 ∧
    (request st (.ok page)).2 = none ∧
    (page.length < 100 → (request st (.ok page)).1.rate = st.rate.speed_up.slow_down) ∧
    (100 ≤ page.length → (request st (.ok page)).1.rate = st.rate.speed_up) := by
  refine ⟨rfl, rfl, rfl, fun h => ?_, fun h => ?_⟩
  · simp [request, h]
  · simp [request, Nat.not_lt.mpr h]

/-- Concrete governor for the orchestrator checks. -/
def rc0 : RateControl := RateControl.new 5000 60000

/-- Concrete start state for the orchestrator checks. -/
def st0 : CollectorSt := { match_seq_num := 0, rate := rc0, indices := emptyBuckets }

theorem request_success_spec_witness :
    (request st0 (.ok [mA])).1.match_seq_num =
      (collect st0.match_seq_num st0.indices [mA]).1 ∧
    (request st0 (.ok [mA])).1.indices = (collect st0.match_seq_num st0.indices [mA]).2 ∧
    (request st0 (.ok [mA])).2 = none ∧
    (request st0 (.ok [mA])).1.rate = st0.rate.speed_up.slow_down :=
  ⟨(request_success_spec st0 [mA]).1, (request_success_spec st0 [mA]).2.1,
    (request_success_spec st0 [mA]).2.2.1,
    (request_success_spec st0 [mA]).2.2.2.1 (by decide)⟩

/-- Observable actions of one run: a fetch (by request index), a flush
of the indices, and an artifact write. -/
inductive Event where
  | fetched (i : Nat)
  | savedIndices
  | wroteArtifact (filename : String)
  deriving DecidableEq, Repr

/-- How a (fuel-bounded) run ended: still looping, terminated by the
fatal decode path, terminated by a flush failure, or completed the loop
successfully (possible only with an empty client list). -/
inductive RunResult where
  | ok
  | fatal (a : Artifact)
  | saveFailed
  | running (st : CollectorSt)

/-- The loop body of `Collector::run`, unrolled per request and bounded
by `fuel`: each iteration waits, fetches (`fetches i` is the i-th
outcome) and on success counts toward the current chunk, flushing after
every `batch` requests; a failed `request` (decode error) triggers a
final flush and terminates with the error, a failed flush terminates
with the flush error. `keyOrder` supplies the `HashMap` iteration order
for each flush. The event list records fetches, flushes and artifact
writes in order. -/
def runAux {E : Type} (persist : Nat → List MatchMask → Except E Unit)
    (keyOrder : Buckets → List Nat) (batch : Nat) (fetches : Nat → FetchResult) :
    Nat → Nat → Nat → CollectorSt → RunResult × List Event
  | 0, _, _, st => (.running st, [])
  | fuel + 1, i, inBatch, st =>
    match request st (fetches i) with
    | (st2, some art) =>
      match save persist (keyOrder st2.indices) st2.indices with
      | (_, some _) => (.saveFailed, [.fetched i, .wroteArtifact art.filename, .savedIndices])
      | (_, none) => (.fatal art, [.fetched i, .wroteArtifact art.filename, .savedIndices])
    | (st2, none) =>
      if inBatch + 1 = batch then
        match save persist (keyOrder st2.indices) st2.indices with
        | (_, some _) => (.saveFailed, [.fetched i, .savedIndices])
        | (idx2, none) =>
          let r := runAux persist keyOrder batch fetches fuel (i + 1) 0
            { st2 with indices := idx2 }
          (r.1, .fetched i :: .savedIndices :: r.2)
      else
        let r := runAux persist keyOrder batch fetches fuel (i + 1) (inBatch + 1) st2
        (r.1, .fetched i :: r.2)

/-- `Collector::run`: one client per configured key; with no keys the
`cycle` over the clients yields nothing, the loop body never runs and
the function returns success; otherwise the loop iterates `runAux`. -/
def run {E : Type} (persist : Nat → List MatchMask → Except E Unit)
    (keyOrder : Buckets → List Nat) (nclients batch : Nat)
    (fetches : Nat → FetchResult) (fuel : Nat) (st : CollectorSt) :
    RunResult × List Event :=
  if nclients = 0 then (.ok, [])
  else runAux persist keyOrder batch fetches fuel 0 0 st

/-- The request indices of the fetch events of a trace, in order. -/
def fetchEvents : List Event → List Nat
  | [] => []
  | .fetched i :: rest => i :: fetchEvents rest
  | .savedIndices :: rest => fetchEvents rest
  | .wroteArtifact _ :: rest => fetchEvents rest

lemma runAux_ne_ok {E : Type} (persist : Nat → List MatchMask → Except E Unit)
    (keyOrder : Buckets → List Nat) (batch : Nat) (fetches : Nat → FetchResult) :
    ∀ (fuel i inBatch : Nat) (st : CollectorSt),
      (runAux persist keyOrder batch fetches fuel i inBatch st).1 ≠ RunResult.ok := by
  intro fuel
  induction fuel with
  | zero =>
    intro i inBatch st
    simp only [runAux]
    nofun
  | succ fuel ih =>
    intro i inBatch st
    simp only [runAux]
    split
    · split
      all_goals nofun
    · split
      · split
        · nofun
        · exact ih (i + 1) 0 _
      · exact ih (i + 1) (inBatch + 1) _

/-- Persistence stub that always succeeds, for the run-loop checks. -/
def okPersist : Nat → List MatchMask → Except String Unit := fun _ _ => .ok ()

/-- Index iteration order stub for the run-loop checks. -/
def wKeyOrder : Buckets → List Nat := fun _ => []

/-- Fetch stub that always reports a transient failure. -/
def wFetch : Nat → FetchResult := fun _ => .transient "timeout"

/-- C9 counterexample: with an empty credential list the cycle over the
clients yields nothing, so `run` returns success immediately without any
fetch, refuting the claim that for every configuration the loop only
ever terminates with an error. -/
theorem run_empty_keys_counterexample :
    run okPersist wKeyOrder 0 100 wFetch 1000 st0 = (RunResult.ok, []) := rfl

/-- C9 (amended): with at least one configured credential the run loop
has no success termination: after any number of request cycles it is
either still looping or has terminated with an error (the fatal decode
path or a flush failure); it never returns success. -/
theorem run_no_success {E : Type} (persist : Nat → List MatchMask → Except E Unit)
    (keyOrder : Buckets → List Nat) (nclients batch : Nat)
    (fetches : Nat → FetchResult) (fuel : Nat) (st : CollectorSt)
    (hc : nclients ≠ 0) :
    (run persist keyOrder nclients batch fetches fuel st).1 ≠ RunResult.ok := by
  simp only [run, if_neg hc]
  exact runAux_ne_ok persist keyOrder batch fetches fuel 0 0 st

theorem run_no_success_witness :
    (run okPersist wKeyOrder 1 100 wFetch 3 st0).1 ≠ RunResult.ok :=
  run_no_success okPersist wKeyOrder 1 100 wFetch 3 st0 (by decide)

lemma fetchEvents_append (tr1 tr2 : List Event) :
    fetchEvents (tr1 ++ tr2) = fetchEvents tr1 ++ fetchEvents tr2 := by
  induction tr1 with
  | nil => rfl
  | cons e rest ih => cases e <;> simp [fetchEvents, ih]

lemma runAux_decode_error {E : Type} (persist : Nat → List MatchMask → Except E Unit)
    (keyOrder : Buckets → List Nat) (batch : Nat) (fetches : Nat → FetchResult)
    (hpersist : ∀ k2 ms, persist k2 ms = .ok ()) :
    ∀ (k fuel i inBatch : Nat) (st : CollectorSt), k < fuel →
      (∀ j, j < k → (fetches (i + j)).isDecodeErr = false) →
      ∀ err content, fetches (i + k) = .decodeError err content →
      ∃ (stk : CollectorSt) (tr0 : List Event),
        runAux persist keyOrder batch fetches fuel i inBatch st =
          (.fatal { filename := toString stk.match_seq_num ++ "-error.json"
                    content := content },
            tr0 ++ [.fetched (i + k),
              .wroteArtifact (toString stk.match_seq_num ++ "-error.json"),
              .savedIndices]) ∧
        fetchEvents tr0 = List.range' i k := by
  intro k
  induction k with
  | zero =>
    intro fuel i inBatch st hfuel hk err content hdec
    obtain ⟨fuel, rfl⟩ : ∃ f, fuel = f + 1 := ⟨fuel - 1, by omega⟩
    rw [Nat.add_zero] at hdec
    refine ⟨st, [], ?_, rfl⟩
    rcases hsave : save persist (keyOrder st.indices) st.indices with ⟨idx2, e3⟩
    have hsv := save_ok_of_persist_ok persist hpersist (keyOrder st.indices) st.indices
    rw [hsave] at hsv
    simp only at hsv
    subst hsv
    simp [runAux, hdec, request, hsave]
  | succ k ihk =>
    intro fuel i inBatch st hfuel hk err content hdec
    obtain ⟨fuel, rfl⟩ : ∃ f, fuel = f + 1 := ⟨fuel - 1, by omega⟩
    have h0 : (fetches i).isDecodeErr = false := by simpa using hk 0 (by omega)
    have hk2 : ∀ j, j < k → (fetches (i + 1 + j)).isDecodeErr = false := by
      intro j hj
      have h1k := hk (j + 1) (by omega)
      have : i + (j + 1) = i + 1 + j := by omega
      rwa [this] at h1k
    have hdec2 : fetches (i + 1 + k) = .decodeError err content := by
      have : i + 1 + k = i + (k + 1) := by omega
      rw [this]
      exact hdec
    have hfuel2 : k < fuel := by omega
    have hreq : ∃ st2, request st (fetches i) = (st2, none) := by
      rcases hfi : fetches i with page | ⟨e2, c2⟩ | e2
      · exact ⟨_, rfl⟩
      · rw [hfi] at h0
        simp [FetchResult.isDecodeErr] at h0
      · exact ⟨_, rfl⟩
    obtain ⟨st2, hreq⟩ := hreq
    have hidx : i + 1 + k = i + (k + 1) := by omega
    by_cases hb : inBatch + 1 = batch
    · rcases hsave : save persist (keyOrder st2.indices) st2.indices with ⟨idx2, e3⟩
      have hsv := save_ok_of_persist_ok persist hpersist (keyOrder st2.indices) st2.indices
      rw [hsave] at hsv
      simp only at hsv
      subst hsv
      obtain ⟨stk, tr0, hrun, hfe⟩ :=
        ihk fuel (i + 1) 0 { st2 with indices := idx2 } hfuel2 hk2 err content hdec2
      rw [hidx] at hrun
      refine ⟨stk, .fetched i :: .savedIndices :: tr0, ?_, ?_⟩
      · simp [runAux, hreq, if_pos hb, hsave, hrun]
      · simp [fetchEvents, hfe, List.range'_succ]
    · obtain ⟨stk, tr0, hrun, hfe⟩ :=
        ihk fuel (i + 1) (inBatch + 1) st2 hfuel2 hk2 err content hdec2
      rw [hidx] at hrun
      refine ⟨stk, .fetched i :: tr0, ?_, ?_⟩
      · simp [runAux, hreq, if_neg hb, hrun]
      · simp [fetchEvents, hfe, List.range'_succ]

/-- C8: with at least one credential, when the k-th fetch is the first
decode (shape-mismatch) failure and every flush persists, the run loop
writes the side artifact named from the current sequence cursor with the
raw payload, performs one flush after it, and terminates returning the
fatal failure; the trace ends at that artifact-flush pair and its fetch
events are exactly 0..k, so no further fetch occurs. -/
theorem decode_error_fatal_spec {E : Type} (persist : Nat → List MatchMask → Except E Unit)
    (keyOrder : Buckets → List Nat) (nclients batch : Nat) (fetches : Nat → FetchResult)
    (st : CollectorSt) (k fuel : Nat) (err content : String)
    (hc : nclients ≠ 0)
    (hpersist : ∀ k2 ms, persist k2 ms = .ok ())
    (hfuel : k < fuel)
    (hbefore : ∀ j, j < k → (fetches j).isDecodeErr = false)
    (hdec : fetches k = .decodeError err content) :
    ∃ (stk : CollectorSt) (tr0 : List Event),
      run persist keyOrder nclients batch fetches fuel st =
        (.fatal { filename := toString stk.match_seq_num ++ "-error.json"
                  content := content },
          tr0 ++ [.fetched k,
            .wroteArtifact (toString stk.match_seq_num ++ "-error.json"),
            .savedIndices]) ∧
      fetchEvents (tr0 ++ [.fetched k,
        .wroteArtifact (toString stk.match_seq_num ++ "-error.json"),
        .savedIndices]) = List.range (k + 1) := by
  have hk0 : ∀ j, j < k → (fetches (0 + j)).isDecodeErr = false := by
    intro j hj
    rw [Nat.zero_add]
    exact hbefore j hj
  have hdec0 : fetches (0 + k) = .decodeError err content := by
    rwa [Nat.zero_add]
  obtain ⟨stk, tr0, hrun, hfe⟩ :=
    runAux_decode_error persist keyOrder batch fetches hpersist k fuel 0 0 st hfuel hk0
      err content hdec0
  rw [Nat.zero_add] at hrun
  refine ⟨stk, tr0, ?_, ?_⟩
  · rw [run, if_neg hc, hrun]
  · rw [fetchEvents_append, hfe, List.range_eq_range']
    simp [fetchEvents, List.range'_concat]

/-- Fetch stub whose second request is the first decode failure. -/
def wFetchDec : Nat → FetchResult := fun i =>
  if i = 1 then .decodeError "bad" "raw" else .ok []

theorem decode_error_fatal_spec_witness :
    ∃ (stk : CollectorSt) (tr0 : List Event),
      run okPersist wKeyOrder 1 3 wFetchDec 5 st0 =
        (.fatal { filename := toString stk.match_seq_num ++ "-error.json"
                  content := "raw" },
          tr0 ++ [.fetched 1,
            .wroteArtifact (toString stk.match_seq_num ++ "-error.json"),
            .savedIndices]) ∧
      fetchEvents (tr0 ++ [.fetched 1,
        .wroteArtifact (toString stk.match_seq_num ++ "-error.json"),
        .savedIndices]) = List.range 2 :=
  decode_error_fatal_spec okPersist wKeyOrder 1 3 wFetchDec st0 1 5 "bad" "raw"
    (by decide) (fun _ _ => rfl) (by omega) (by decide) rfl

end Dota2
